import Mathlib

set_option maxHeartbeats 1000000
set_option autoImplicit false

/-
  Verification of the smolagentsjs code-execution sandbox, shallowly embedded
  from src/smolagentsjs/utils.js, src/smolagentsjs/local_nodejs_executor.js and
  src/smolagentsjs/tool_validation.js.

  JavaScript strings are modelled as lists of characters (`Str`); JavaScript
  objects used as string-keyed records are modelled as association lists
  (`JsObj`) whose lookup returns the first binding for a key.
-/

abbrev Str := List Char

/-- `containsSeg pat s` holds when `pat` occurs contiguously inside `s`. -/
def containsSeg (pat s : Str) : Prop := ∃ p q, s = p ++ (pat ++ q)

theorem containsSeg_append_left (pat s t : Str) (h : containsSeg pat s) :
    containsSeg pat (t ++ s) := by
  obtain ⟨p, q, rfl⟩ := h
  exact ⟨t ++ p, q, by simp⟩

theorem containsSeg_append_right (pat s t : Str) (h : containsSeg pat s) :
    containsSeg pat (s ++ t) := by
  obtain ⟨p, q, rfl⟩ := h
  exact ⟨p, q ++ t, by simp⟩

namespace Utils

/-- utils.js: `BASE_BUILTIN_MODULES` (the module-name allow list that
tool_validation.js imports; note it differs from the executor's own list). -/
def BASE_BUILTIN_MODULES : List String :=
  ["collections", "datetime", "itertools", "math", "queue", "random", "re",
   "stat", "statistics", "time", "unicodedata"]

/-- utils.js: `MAX_LENGTH_TRUNCATE_CONTENT`, the default truncation cap. -/
def MAX_LENGTH_TRUNCATE_CONTENT : Nat := 20000

/-- The elision marker inserted by `truncateContent`:
`` `\n..._This content has been truncated to stay below ${maxLength} characters_...\n` ``. -/
def truncationMarker (maxLength : Nat) : Str :=
  "\n..._This content has been truncated to stay below ".data ++
    ((toString maxLength).data ++ " characters_...\n".data)

/-- JavaScript `content.slice(-n)`: `-0` is `0`, so `slice(-0)` yields the whole
string; for `n > 0` it yields the last `n` characters (clamped at the start). -/
def sliceFromEnd (content : Str) (n : Nat) : Str :=
  if n = 0 then content else content.drop (content.length - n)

/-- utils.js `truncateContent(content, maxLength)`: returns `content` unchanged
when it fits, otherwise keeps the first and last `floor(maxLength / 2)`
characters around the elision marker. -/
def truncateContent (content : Str) (maxLength : Nat) : Str :=
  if content.length ≤ maxLength then content
  else
    content.take (maxLength / 2) ++
      (truncationMarker maxLength ++ sliceFromEnd content (maxLength / 2))

/-- The last `n` characters of `s` (used to state the suffix property). -/
def lastChars (s : Str) (n : Nat) : Str := s.drop (s.length - n)

theorem truncateContent_nil (cap : Nat) : truncateContent [] cap = [] := by
  simp [truncateContent]

/-- C5 (amended): for a cap of at least 2, `truncateContent` returns short
content unchanged, and for long content the result is at most
`cap + marker length` characters, begins with the first `cap / 2` characters,
ends with the last `cap / 2` characters, and contains the elision marker. -/
theorem truncateContent_contract (content : Str) (cap : Nat) (hcap : 2 ≤ cap) :
    (content.length ≤ cap → truncateContent content cap = content) ∧
    (cap < content.length →
      (truncateContent content cap).length ≤ cap + (truncationMarker cap).length ∧
      (truncateContent content cap).take (cap / 2) = content.take (cap / 2) ∧
      lastChars (truncateContent content cap) (cap / 2) = lastChars content (cap / 2) ∧
      containsSeg (truncationMarker cap) (truncateContent content cap)) := by
  constructor
  · intro hle
    simp [truncateContent, hle]
  · intro hlt
    have hnle : ¬ content.length ≤ cap := Nat.not_le.mpr hlt
    have hhalf : 1 ≤ cap / 2 := (Nat.le_div_iff_mul_le (by norm_num)).mpr (by omega)
    have hne : cap / 2 ≠ 0 := by omega
    have hhL : cap / 2 ≤ content.length :=
      Nat.le_of_lt (Nat.lt_of_le_of_lt (Nat.div_le_self cap 2) hlt)
    have hslice : sliceFromEnd content (cap / 2) = content.drop (content.length - cap / 2) := by
      simp [sliceFromEnd, hne]
    have e : truncateContent content cap =
        content.take (cap / 2) ++
          (truncationMarker cap ++ content.drop (content.length - cap / 2)) := by
      rw [truncateContent, if_neg hnle, hslice]
    have hA : (content.take (cap / 2)).length = cap / 2 := by
      rw [List.length_take]
      omega
    have hB : (content.drop (content.length - cap / 2)).length = cap / 2 := by
      rw [List.length_drop]
      omega
    have hmul : cap / 2 * 2 ≤ cap := Nat.div_mul_le_self cap 2
    refine ⟨?_, ?_, ?_, ?_⟩
    · rw [e]
      simp only [List.length_append, hA, hB]
      omega
    · rw [e, List.take_append_eq_append_take, hA]
      simp [List.take_of_length_le (Nat.le_of_eq hA)]
    · have harith :
          (content.take (cap / 2) ++
            (truncationMarker cap ++ content.drop (content.length - cap / 2))).length - cap / 2
          = (content.take (cap / 2) ++ truncationMarker cap).length := by
        simp only [List.length_append, hA, hB]
        omega
      unfold lastChars
      rw [e, harith, ← List.append_assoc, List.drop_left]
    · rw [e]
      exact ⟨content.take (cap / 2), content.drop (content.length - cap / 2), rfl⟩

/-- C5 counterexample: with cap 1 and content `"ab"`, JavaScript's
`slice(-0)` keeps the whole string, so the result exceeds
`cap + marker length`, refuting the claimed length bound for every cap. -/
theorem truncateContent_cap_one_cex :
    ¬ ((truncateContent ("ab".data) 1).length ≤ 1 + (truncationMarker 1).length) := by
  decide

/-- Witness for C5: the amended contract applied at content `"abcdefgh"`, cap 4. -/
theorem truncateContent_contract_witness :
    (2 ≤ 4 ∧ 4 < ("abcdefgh".data).length) ∧
    (truncateContent ("abcdefgh".data) 4).take (4 / 2) = ("abcdefgh".data).take (4 / 2) :=
  ⟨⟨by decide, by decide⟩,
   ((truncateContent_contract ("abcdefgh".data) 4 (by decide)).2 (by decide)).2.1⟩

end Utils

/-- JavaScript runtime values, as far as the sandbox claims need them.
`moduleRef` stands for the opaque value the host `require` returns and
`builtin` for one of the ambient globals collected in `BASE_JS_TOOLS`. -/
inductive Value where
  | undef
  | nullV
  | boolV (b : Bool)
  | int (n : Int)
  | str (s : Str)
  | moduleRef (name : Str)
  | builtin (tag : String)
deriving DecidableEq

/-- Errors thrown inside the sandbox: `interp m` is an `InterpreterError`
with message `m`; `other m` is any other thrown error, by its message. -/
inductive JsError where
  | interp (msg : Str)
  | other (msg : Str)
deriving DecidableEq

/-- A JavaScript object used as a string-keyed record: an association list in
property order; lookup returns the first binding (objects never hold two
bindings for one key, so this agrees with JS property lookup). -/
abbrev JsObj := List (String × Value)

/-- Property lookup `o[k]` (absent keys give `none`, i.e. `undefined`). -/
def objGet (o : JsObj) (k : String) : Option Value :=
  (o.find? (fun p => p.1 == k)).map (fun p => p.2)

/-- Property assignment `o[k] = v`: updates in place when the key exists,
otherwise appends the new binding (JS insertion order). -/
def objSet (o : JsObj) (k : String) (v : Value) : JsObj :=
  if (objGet o k).isSome then o.map (fun p => if p.1 == k then (p.1, v) else p)
  else o ++ [(k, v)]

/-- The JS object spread `{ ...a, ...b }`, as observed through `objGet`:
bindings of `b` win over bindings of `a` for the same key. -/
def spreadMerge (a b : JsObj) : JsObj :=
  a.filter (fun p => (objGet b p.1).isNone) ++ b

theorem objGet_nil (k : String) : objGet [] k = none := rfl

theorem objGet_cons (p : String × Value) (o : JsObj) (k : String) :
    objGet (p :: o) k = if p.1 == k then some p.2 else objGet o k := by
  cases h : p.1 == k <;> simp [objGet, List.find?_cons, h]

theorem objGet_append (a b : JsObj) (k : String) :
    objGet (a ++ b) k =
      match objGet a k with
      | some v => some v
      | none => objGet b k := by
  induction a with
  | nil => simp [objGet_nil]
  | cons p a ih =>
    cases h : p.1 == k with
    | true => simp [List.cons_append, objGet_cons, h]
    | false => simp [List.cons_append, objGet_cons, h, ih]

theorem objGet_filter_of_isSome (a b : JsObj) (k : String)
    (h : (objGet b k).isSome = true) :
    objGet (a.filter (fun p => (objGet b p.1).isNone)) k = none := by
  induction a with
  | nil => rfl
  | cons p a ih =>
    by_cases hpk : (p.1 == k) = true
    · have hk : p.1 = k := by simpa using hpk
      have hdrop : (objGet b p.1).isNone = false := by
        rw [hk]
        obtain ⟨v, hv⟩ := Option.isSome_iff_exists.mp h
        simp [hv]
      simp [List.filter_cons, hdrop, ih]
    · by_cases hpred : ((objGet b p.1).isNone : Bool) = true
      · simp [List.filter_cons, hpred, objGet_cons, hpk, ih]
      · simp [List.filter_cons, hpred, ih]

theorem objGet_filter_of_none (a b : JsObj) (k : String)
    (h : objGet b k = none) :
    objGet (a.filter (fun p => (objGet b p.1).isNone)) k = objGet a k := by
  induction a with
  | nil => rfl
  | cons p a ih =>
    by_cases hpk : (p.1 == k) = true
    · have hk : p.1 = k := by simpa using hpk
      have hpred : (objGet b p.1).isNone = true := by rw [hk, h]; rfl
      simp [List.filter_cons, hpred, objGet_cons, hpk]
    · by_cases hpred : ((objGet b p.1).isNone : Bool) = true
      · simp [List.filter_cons, hpred, objGet_cons, hpk, ih]
      · simp [List.filter_cons, hpred, objGet_cons, hpk, ih]

theorem objGet_spreadMerge (a b : JsObj) (k : String) :
    objGet (spreadMerge a b) k =
      match objGet b k with
      | some v => some v
      | none => objGet a k := by
  rw [spreadMerge, objGet_append]
  cases hb : objGet b k with
  | some v =>
    rw [objGet_filter_of_isSome a b k (by rw [hb]; rfl)]
  | none =>
    rw [objGet_filter_of_none a b k hb]
    cases ha : objGet a k <;> simp [hb]

theorem objGet_map_set (o : JsObj) (k : String) (v : Value) :
    objGet (o.map (fun p => if p.1 == k then (p.1, v) else p)) k =
      (objGet o k).map (fun _ => v) := by
  induction o with
  | nil => rfl
  | cons p o ih =>
    by_cases h : p.1 = k
    · subst h
      simp [objGet_cons]
    · simp [objGet_cons, h]
      simpa using ih

theorem objGet_objSet_self (o : JsObj) (k : String) (v : Value) :
    objGet (objSet o k v) k = some v := by
  by_cases h : (objGet o k).isSome = true
  · unfold objSet
    rw [if_pos h, objGet_map_set]
    obtain ⟨w, hw⟩ := Option.isSome_iff_exists.mp h
    rw [hw]
    rfl
  · have hn : objGet o k = none := by
      cases hx : objGet o k
      · rfl
      · rw [hx] at h; simp at h
    unfold objSet
    rw [if_neg (by simp [h]), objGet_append, hn]
    simp [objGet_cons]

theorem objGet_map_set_ne (o : JsObj) (k k' : String) (v : Value) (h : k' ≠ k) :
    objGet (o.map (fun p => if p.1 == k then (p.1, v) else p)) k' = objGet o k' := by
  induction o with
  | nil => rfl
  | cons p o ih =>
    by_cases hp : p.1 = k
    · subst hp
      have hne : ¬ p.1 = k' := fun hkk => h hkk.symm
      simp [objGet_cons, hne]
      simpa using ih
    · by_cases hp' : p.1 = k'
      · simp [objGet_cons, hp, hp', h]
      · simp [objGet_cons, hp, hp']
        simpa using ih

theorem objGet_objSet_ne (o : JsObj) (k k' : String) (v : Value) (h : k' ≠ k) :
    objGet (objSet o k v) k' = objGet o k' := by
  by_cases hs : (objGet o k).isSome = true
  · unfold objSet
    rw [if_pos hs]
    exact objGet_map_set_ne o k k' v h
  · unfold objSet
    rw [if_neg (by simp [hs]), objGet_append]
    have hne : ¬ k = k' := fun hkk => h hkk.symm
    cases ha : objGet o k' <;> simp [objGet_cons, objGet_nil, hne, ha]

namespace LocalNodeExecutor

/-- local_nodejs_executor.js: `MAX_LEN_OUTPUT`, the interpreter-layer bound on
captured output. -/
def MAX_LEN_OUTPUT : Nat := 50000

/-- local_nodejs_executor.js: `BASE_BUILTIN_MODULES`, the default
authorized-import list of the executor. -/
def BASE_BUILTIN_MODULES : List Str :=
  ["assert".data, "buffer".data, "events".data, "path".data, "querystring".data,
   "stream".data, "string_decoder".data, "timers".data, "url".data, "util".data]

/-- local_nodejs_executor.js: `BASE_JS_TOOLS`, the fixed table of safe built-in
bindings; each value is an ambient host global, modelled opaquely by its tag
(the `JSON` entry is the two-method `{ parse, stringify }` wrapper). -/
def BASE_JS_TOOLS : JsObj :=
  [("Number", Value.builtin "Number"), ("String", Value.builtin "String"),
   ("Boolean", Value.builtin "Boolean"), ("Array", Value.builtin "Array"),
   ("Object", Value.builtin "Object"), ("Set", Value.builtin "Set"),
   ("Map", Value.builtin "Map"), ("Math", Value.builtin "Math"),
   ("isArray", Value.builtin "isArray"), ("from", Value.builtin "from"),
   ("keys", Value.builtin "keys"), ("values", Value.builtin "values"),
   ("entries", Value.builtin "entries"), ("assign", Value.builtin "assign"),
   ("toLowerCase", Value.builtin "toLowerCase"),
   ("toUpperCase", Value.builtin "toUpperCase"), ("trim", Value.builtin "trim"),
   ("typeof", Value.builtin "typeof"), ("instanceof", Value.builtin "instanceof"),
   ("parseInt", Value.builtin "parseInt"), ("parseFloat", Value.builtin "parseFloat"),
   ("isNaN", Value.builtin "isNaN"), ("isFinite", Value.builtin "isFinite"),
   ("JSON", Value.builtin "JSON")]

/-- JavaScript `Array.prototype.join(sep)`. -/
def joinSep (sep : Str) : List Str → Str
  | [] => []
  | [x] => x
  | x :: y :: xs => x ++ (sep ++ joinSep sep (y :: xs))

theorem containsSeg_joinSep (sep : Str) (l : List Str) (a : Str) (h : a ∈ l) :
    containsSeg a (joinSep sep l) := by
  induction l with
  | nil => cases h
  | cons x xs ih =>
    cases xs with
    | nil =>
      have hax : a = x := by
        cases h with
        | head => rfl
        | tail _ h2 => cases h2
      subst hax
      exact ⟨[], [], by simp [joinSep]⟩
    | cons y ys =>
      cases h with
      | head => exact ⟨[], sep ++ joinSep sep (y :: ys), by simp [joinSep]⟩
      | tail _ hmem =>
        have h1 := containsSeg_append_left a (joinSep sep (y :: ys)) sep (ih hmem)
        have h2 := containsSeg_append_left a (sep ++ joinSep sep (y :: ys)) x h1
        simpa [joinSep] using h2

/-- The denial message of `createSecureRequire`:
`` `Module '${moduleName}' is not authorized. Allowed modules are: ${authorizedModules.join(', ')}` ``. -/
def deniedMsg (authorizedModules : List Str) (moduleName : Str) : Str :=
  "Module '".data ++
    (moduleName ++
      ("' is not authorized. Allowed modules are: ".data ++
        joinSep (", ".data) authorizedModules))

/-- local_nodejs_executor.js `createSecureRequire(authorizedModules)` applied to
a module name: throws an `InterpreterError` unless the name is included in the
authorized list, in which case it returns the host module (modelled as an
opaque `Value.moduleRef`). -/
def secureRequire (authorizedModules : List Str) (moduleName : Str) :
    Except JsError Value :=
  if moduleName ∈ authorizedModules then Except.ok (Value.moduleRef moduleName)
  else Except.error (JsError.interp (deniedMsg authorizedModules moduleName))

/-- C1: the require gate denies every module outside the authorized set with an
`InterpreterError` whose message contains the module name and every member of
the authorized set, and returns the module value for every authorized name. -/
theorem secureRequire_allowlist (authorizedModules : List Str) (m : Str) :
    (m ∈ authorizedModules →
      secureRequire authorizedModules m = Except.ok (Value.moduleRef m)) ∧
    (m ∉ authorizedModules →
      secureRequire authorizedModules m =
        Except.error (JsError.interp (deniedMsg authorizedModules m)) ∧
      containsSeg m (deniedMsg authorizedModules m) ∧
      ∀ a ∈ authorizedModules, containsSeg a (deniedMsg authorizedModules m)) := by
  constructor
  · intro h
    simp [secureRequire, h]
  · intro h
    refine ⟨by simp [secureRequire, h], ?_, ?_⟩
    · exact ⟨"Module '".data,
        "' is not authorized. Allowed modules are: ".data ++
          joinSep (", ".data) authorizedModules, rfl⟩
    · intro a ha
      have h1 := containsSeg_joinSep (", ".data) authorizedModules a ha
      have h2 := containsSeg_append_left a _
        ("' is not authorized. Allowed modules are: ".data) h1
      have h3 := containsSeg_append_left a _ m h2
      have h4 := containsSeg_append_left a _ ("Module '".data) h3
      exact h4

/-- Witness for C1 at the executor's default allow list: `path` is authorized
and resolves; `fs` is denied with the descriptive error. -/
theorem secureRequire_allowlist_witness :
    ("path".data ∈ BASE_BUILTIN_MODULES ∧ "fs".data ∉ BASE_BUILTIN_MODULES) ∧
    (secureRequire BASE_BUILTIN_MODULES ("path".data) =
        Except.ok (Value.moduleRef ("path".data)) ∧
     secureRequire BASE_BUILTIN_MODULES ("fs".data) =
        Except.error (JsError.interp (deniedMsg BASE_BUILTIN_MODULES ("fs".data)))) :=
  ⟨⟨by decide, by decide⟩,
   ⟨(secureRequire_allowlist BASE_BUILTIN_MODULES ("path".data)).1 (by decide),
    ((secureRequire_allowlist BASE_BUILTIN_MODULES ("fs".data)).2 (by decide)).1⟩⟩

/-- Result of running one piece of sandboxed code against the state object:
the (possibly mutated) state, the text printed to the captured console, and
either the completion value or a thrown error. -/
structure ProgOut where
  state : JsObj
  output : Str
  outcome : Except JsError Value

/-- Sandboxed code is modelled extensionally, by what it does to the session's
state object (plus its captured output and outcome); the remaining sandbox
bindings (`console`, `require`, `BASE_JS_TOOLS`, tools) are fixed per session
and are modelled separately where a claim depends on them. -/
abbrev Prog := JsObj → ProgOut

/-- The message of the `InterpreterError` built in `evaluateCode`'s catch block
for a non-`InterpreterError` fault (no `lineNumber` or `stack` on the modelled
error, so the template's fallbacks `'unknown'` and `''` apply). -/
def evalWrapMsg (m : Str) : Str :=
  "Code execution failed: ".data ++ (m ++ "\n    at line unknown\n    ".data)

/-- evaluateCode's catch: rethrow an `InterpreterError` unchanged, wrap any
other fault. -/
def evalWrap : JsError → JsError
  | JsError.interp m => JsError.interp m
  | JsError.other m => JsError.interp (evalWrapMsg m)

/-- local_nodejs_executor.js `evaluateCode` for a context that carries the
session state (the `LocalNodeInterpreter.__call__` path): run the code, on
success store the truncated captured output under `state.printOutputs` and
return the completion value, on a fault rethrow/wrap per `evalWrap` (the
output is not stored on this path). -/
def evaluateCode (p : Prog) (state : JsObj) : JsObj × Except JsError Value :=
  let r := p state
  match r.outcome with
  | Except.ok v =>
      (objSet r.state "printOutputs"
        (Value.str (Utils.truncateContent r.output MAX_LEN_OUTPUT)),
       Except.ok v)
  | Except.error e => (r.state, Except.error (evalWrap e))

/-- `__call__`'s catch: rethrow an `InterpreterError`, wrap any other fault as
`` `Execution failed: ${error.message}` ``. -/
def callWrap : JsError → JsError
  | JsError.interp m => JsError.interp m
  | JsError.other m => JsError.interp ("Execution failed: ".data ++ m)

/-- The state of a `LocalNodeInterpreter` session (constructor fields). -/
structure LocalNodeInterpreter where
  customTools : JsObj
  state : JsObj
  additionalAuthorizedImports : List Str
  authorizedImports : List Str
  staticTools : JsObj

/-- The `LocalNodeInterpreter` constructor: empty custom tools and state, the
authorized imports as `[...new Set([...BASE_BUILTIN_MODULES, ...additional])]`
(first occurrences kept), and `staticTools = { ...tools, ...BASE_JS_TOOLS }`. -/
def LocalNodeInterpreter.create (additionalAuthorizedImports : List Str)
    (tools : JsObj) : LocalNodeInterpreter :=
  { customTools := []
    state := []
    additionalAuthorizedImports := additionalAuthorizedImports
    authorizedImports :=
      (BASE_BUILTIN_MODULES ++ additionalAuthorizedImports).eraseDups
    staticTools := spreadMerge tools BASE_JS_TOOLS }

/-- Line 177: `this.state = { ...this.state, ...additionalVariables }`. -/
def LocalNodeInterpreter.mergeState (s : LocalNodeInterpreter) (extra : JsObj) :
    JsObj :=
  spreadMerge s.state extra

/-- `this.state.printOutputs || ''` (on the success path the stored value is a
string; the empty string is falsy and `||` yields `''`, the same value). -/
def logsOf (st : JsObj) : Str :=
  match objGet st "printOutputs" with
  | some (Value.str t) => t
  | _ => []

/-- `LocalNodeInterpreter.__call__(codeAction, additionalVariables)`: merge the
extra variables into the persistent state, evaluate, and either return
`[output, logs]` or rethrow/wrap the error per `callWrap`; the session keeps
the state object mutated by the call in both cases. -/
def callSession (s : LocalNodeInterpreter) (p : Prog) (extra : JsObj) :
    LocalNodeInterpreter × Except JsError (Value × Str) :=
  match evaluateCode p (s.mergeState extra) with
  | (st, Except.ok v) => ({ s with state := st }, Except.ok (v, logsOf st))
  | (st, Except.error e) => ({ s with state := st }, Except.error (callWrap e))

/-- The state object after a successful call: the state as mutated by the code,
with the truncated captured output stored under `printOutputs`. -/
def postState (p : Prog) (st : JsObj) : JsObj :=
  objSet (p st).state "printOutputs"
    (Value.str (Utils.truncateContent (p st).output MAX_LEN_OUTPUT))

theorem evaluateCode_of_ok (p : Prog) (st : JsObj) (v : Value)
    (h : (p st).outcome = Except.ok v) :
    evaluateCode p st = (postState p st, Except.ok v) := by
  simp [evaluateCode, postState, h]

theorem evaluateCode_of_error (p : Prog) (st : JsObj) (e : JsError)
    (h : (p st).outcome = Except.error e) :
    evaluateCode p st = ((p st).state, Except.error (evalWrap e)) := by
  simp [evaluateCode, h]

theorem callSession_of_ok (s : LocalNodeInterpreter) (p : Prog) (extra : JsObj)
    (v : Value) (h : (p (s.mergeState extra)).outcome = Except.ok v) :
    callSession s p extra =
      ({ s with state := postState p (s.mergeState extra) },
       Except.ok (v, logsOf (postState p (s.mergeState extra)))) := by
  unfold callSession
  rw [evaluateCode_of_ok p (s.mergeState extra) v h]

theorem callSession_of_error (s : LocalNodeInterpreter) (p : Prog)
    (extra : JsObj) (e : JsError)
    (h : (p (s.mergeState extra)).outcome = Except.error e) :
    callSession s p extra =
      ({ s with state := (p (s.mergeState extra)).state },
       Except.error (callWrap (evalWrap e))) := by
  unfold callSession
  rw [evaluateCode_of_error p (s.mergeState extra) e h]

/-- A program that only throws `e`. -/
def throwProg (e : JsError) : Prog := fun st => ⟨st, [], Except.error e⟩

/-- A program that prints `out` and completes with value `v`. -/
def outProg (out : Str) (v : Value) : Prog := fun st => ⟨st, out, Except.ok v⟩

/-- A program that prints `out` and then throws `e`. -/
def outThrowProg (out : Str) (e : JsError) : Prog :=
  fun st => ⟨st, out, Except.error e⟩

/-- The JavaScript statement `state.k = v` (the assignment's completion value
is the assigned value). -/
def setProg (k : String) (v : Value) : Prog :=
  fun st => ⟨objSet st k v, [], Except.ok v⟩

/-- The JavaScript expression `state.k` (an absent property reads as
`undefined`). -/
def readProg (k : String) : Prog :=
  fun st => ⟨st, [], Except.ok ((objGet st k).getD Value.undef)⟩

/-- `true` exactly when a result of `__call__` escaped with an error that is
not an `InterpreterError`. -/
def escapedNonInterp : Except JsError (Value × Str) → Bool
  | Except.error (JsError.other _) => true
  | _ => false

/-- C4: no error other than `InterpreterError` ever escapes `__call__`; an
`InterpreterError` thrown by the evaluated code propagates unchanged (no
nested wrapper), and any other fault escapes as an `InterpreterError` whose
message contains the original message. -/
theorem interpreter_error_normalization (s : LocalNodeInterpreter) (p : Prog)
    (extra : JsObj) (m : Str) :
    escapedNonInterp (callSession s p extra).2 = false ∧
    (callSession s (throwProg (JsError.interp m)) extra).2 =
      Except.error (JsError.interp m) ∧
    (callSession s (throwProg (JsError.other m)) extra).2 =
      Except.error (JsError.interp (evalWrapMsg m)) ∧
    containsSeg m (evalWrapMsg m) := by
  refine ⟨?_, rfl, rfl,
    ⟨"Code execution failed: ".data, "\n    at line unknown\n    ".data, rfl⟩⟩
  cases hout : (p (s.mergeState extra)).outcome with
  | ok v =>
    rw [callSession_of_ok s p extra v hout]
    rfl
  | error e =>
    rw [callSession_of_error s p extra e hout]
    cases e <;> rfl

/-- C6: the per-call merge of `extraVariables` into the persistent state is a
right-biased shallow merge: keys bound in `extraVariables` take its value,
all other keys keep their previous state value. -/
theorem mergeState_right_biased (s : LocalNodeInterpreter) (extra : JsObj)
    (k : String) :
    objGet (s.mergeState extra) k =
      match objGet extra k with
      | some v => some v
      | none => objGet s.state k := by
  unfold LocalNodeInterpreter.mergeState
  exact objGet_spreadMerge s.state extra k

/-- C7 (amended): when a call completes, the captured output is truncated to
`MAX_LEN_OUTPUT`, stored under the reserved key `printOutputs`, and surfaced
as the call's logs; when the code faults, the captured output is discarded —
the reserved key keeps the value it had after the merge, and the caller sees
only the error. -/
theorem output_drain_policy (s : LocalNodeInterpreter) (extra : JsObj)
    (out : Str) (v : Value) (m : Str) :
    objGet ((callSession s (outProg out v) extra).1.state) "printOutputs" =
      some (Value.str (Utils.truncateContent out MAX_LEN_OUTPUT)) ∧
    (callSession s (outProg out v) extra).2 =
      Except.ok (v, Utils.truncateContent out MAX_LEN_OUTPUT) ∧
    objGet ((callSession s (outThrowProg out (JsError.other m)) extra).1.state)
        "printOutputs" =
      objGet (s.mergeState extra) "printOutputs" := by
  refine ⟨?_, ?_, ?_⟩
  · rw [callSession_of_ok s (outProg out v) extra v rfl]
    exact objGet_objSet_self _ _ _
  · rw [callSession_of_ok s (outProg out v) extra v rfl]
    simp [logsOf, postState, outProg, objGet_objSet_self]
  · rw [callSession_of_error s (outThrowProg out (JsError.other m)) extra
      (JsError.other m) rfl]
    rfl

/-- C7 counterexample: output printed before a fault is not surfaced — after a
call whose code prints `"hi"` and then throws, the reserved key holds nothing
(the session here starts empty), while the claim requires the captured text to
be available to the caller. -/
theorem output_lost_on_fault_cex :
    objGet ((callSession (LocalNodeInterpreter.create [] [])
        (outThrowProg ("hi".data) (JsError.other ("boom".data))) []).1.state)
        "printOutputs" = none ∧
    (some (Value.str ("hi".data)) ≠ (none : Option Value)) :=
  ⟨rfl, by decide⟩

/-- C10: any caller-supplied tool whose name collides with a key of
`BASE_JS_TOOLS` is shadowed in the session's static bindings: the constructor's
spread `{ ...tools, ...BASE_JS_TOOLS }` makes the built-in value win, whatever
the caller's tool was. -/
theorem base_tools_shadow_caller_tools (additionalAuthorizedImports : List Str)
    (tools : JsObj) (k : String)
    (h : (objGet BASE_JS_TOOLS k).isSome = true) :
    objGet ((LocalNodeInterpreter.create additionalAuthorizedImports
        tools).staticTools) k = objGet BASE_JS_TOOLS k := by
  have hst : (LocalNodeInterpreter.create additionalAuthorizedImports
      tools).staticTools = spreadMerge tools BASE_JS_TOOLS := rfl
  rw [hst, objGet_spreadMerge]
  obtain ⟨v, hv⟩ := Option.isSome_iff_exists.mp h
  rw [hv]

/-- Witness for C10: a caller tool named `JSON` is shadowed by the built-in
`JSON` wrapper. -/
theorem base_tools_shadow_caller_tools_witness :
    ((objGet BASE_JS_TOOLS "JSON").isSome = true) ∧
    objGet ((LocalNodeInterpreter.create []
        [("JSON", Value.str ("not the builtin".data))]).staticTools) "JSON" =
      objGet BASE_JS_TOOLS "JSON" :=
  ⟨rfl, base_tools_shadow_caller_tools []
    [("JSON", Value.str ("not the builtin".data))] "JSON" rfl⟩

end LocalNodeExecutor

namespace LocalNodeExecutor

/-- A program that leaves the binding of key `k` unchanged (it may freely
mutate every other key, print, or throw). -/
def PreservesKey (p : Prog) (k : String) : Prop :=
  ∀ st : JsObj, objGet ((p st).state) k = objGet st k

/-- A sequence of further calls on the same session, each with its own code
and extra variables. -/
def runCalls (s : LocalNodeInterpreter) (steps : List (Prog × JsObj)) :
    LocalNodeInterpreter :=
  steps.foldl (fun cur pe => (callSession cur pe.1 pe.2).1) s

theorem mergeState_nil_extra (s : LocalNodeInterpreter) (k : String) :
    objGet (s.mergeState []) k = objGet s.state k := by
  rw [LocalNodeInterpreter.mergeState, objGet_spreadMerge, objGet_nil]

theorem callSession_preserves_key (s : LocalNodeInterpreter) (p : Prog)
    (extra : JsObj) (k : String) (hk : k ≠ "printOutputs")
    (hp : PreservesKey p k) (he : objGet extra k = none) :
    objGet ((callSession s p extra).1.state) k = objGet s.state k := by
  have hm : objGet (s.mergeState extra) k = objGet s.state k := by
    rw [LocalNodeInterpreter.mergeState, objGet_spreadMerge, he]
  cases hout : (p (s.mergeState extra)).outcome with
  | ok v =>
    rw [callSession_of_ok s p extra v hout]
    show objGet (postState p (s.mergeState extra)) k = objGet s.state k
    unfold postState
    rw [objGet_objSet_ne _ _ _ _ hk, hp (s.mergeState extra), hm]
  | error e =>
    rw [callSession_of_error s p extra e hout]
    show objGet ((p (s.mergeState extra)).state) k = objGet s.state k
    rw [hp (s.mergeState extra), hm]

theorem runCalls_preserves_key (k : String) (steps : List (Prog × JsObj)) :
    ∀ s : LocalNodeInterpreter, k ≠ "printOutputs" →
      (∀ pe ∈ steps, PreservesKey pe.1 k ∧ objGet pe.2 k = none) →
      objGet ((runCalls s steps).state) k = objGet s.state k := by
  induction steps with
  | nil => intro s _ _; rfl
  | cons pe rest ih =>
    intro s hk hsteps
    have h1 := hsteps pe (List.mem_cons_self pe rest)
    have hrest : ∀ q ∈ rest, PreservesKey q.1 k ∧ objGet q.2 k = none :=
      fun q hq => hsteps q (List.mem_cons_of_mem pe hq)
    have hfold : runCalls s (pe :: rest) = runCalls ((callSession s pe.1 pe.2).1) rest := rfl
    rw [hfold, ih _ hk hrest, callSession_preserves_key s pe.1 pe.2 k hk h1.1 h1.2]

/-- C3 (amended): a value stored under a key other than the reserved
`printOutputs` key persists across calls on the same session — after setting
`state.k = v` in one call and running any further calls whose code leaves `k`
alone and whose extra variables do not rebind `k`, code reading `state.k`
observes `v` (no implicit reset between calls). -/
theorem state_persistence (s : LocalNodeInterpreter) (k : String) (v : Value)
    (steps : List (Prog × JsObj)) (hk : k ≠ "printOutputs")
    (hsteps : ∀ pe ∈ steps, PreservesKey pe.1 k ∧ objGet pe.2 k = none) :
    (callSession (runCalls (callSession s (setProg k v) []).1 steps)
        (readProg k) []).2 = Except.ok (v, ([] : Str)) := by
  have h1 : objGet ((callSession s (setProg k v) []).1.state) k = some v := by
    cases hout : ((setProg k v) (s.mergeState [])).outcome with
    | ok w =>
      rw [callSession_of_ok s (setProg k v) [] w hout]
      show objGet (postState (setProg k v) (s.mergeState [])) k = some v
      unfold postState
      rw [objGet_objSet_ne _ _ _ _ hk]
      exact objGet_objSet_self _ _ _
    | error e => cases hout
  have h2 : objGet ((runCalls (callSession s (setProg k v) []).1 steps).state) k
      = some v := by
    rw [runCalls_preserves_key k steps _ hk hsteps, h1]
  have hm2 : objGet ((runCalls (callSession s (setProg k v) []).1
      steps).mergeState []) k = some v := by
    rw [mergeState_nil_extra, h2]
  rw [callSession_of_ok _ (readProg k) [] ((objGet ((runCalls
      (callSession s (setProg k v) []).1 steps).mergeState []) k).getD
        Value.undef) rfl]
  rw [hm2]
  have hlogs : logsOf (postState (readProg k) ((runCalls
      (callSession s (setProg k v) []).1 steps).mergeState [])) = [] := by
    unfold logsOf postState
    rw [objGet_objSet_self]
    simp [readProg, Utils.truncateContent_nil]
  rw [hlogs]
  rfl

/-- Witness for C3: storing `1` under key `x` in call 1 is observed by a read
of `x` in call 2 on the same session. -/
theorem state_persistence_witness :
    ("x" ≠ "printOutputs") ∧
    (callSession (runCalls (callSession (LocalNodeInterpreter.create [] [])
        (setProg "x" (Value.int 1)) []).1 []) (readProg "x") []).2 =
      Except.ok (Value.int 1, ([] : Str)) :=
  ⟨by decide,
   state_persistence (LocalNodeInterpreter.create [] []) "x" (Value.int 1) []
     (by decide) (fun pe hpe => absurd hpe (List.not_mem_nil pe))⟩

/-- C3 counterexample: the reserved key is implicitly reset — code that stores
the number `1` under `state.printOutputs` in call 1 does not see it in call 2;
the evaluator overwrites the key with the call's captured output (here the
empty string), so the read observes `""`, not `1`. -/
theorem state_reserved_key_clobbered_cex :
    (callSession (callSession (LocalNodeInterpreter.create [] [])
        (setProg "printOutputs" (Value.int 1)) []).1
        (readProg "printOutputs") []).2 =
      Except.ok (Value.str [], ([] : Str)) ∧
    Value.str [] ≠ Value.int 1 :=
  ⟨rfl, by decide⟩

end LocalNodeExecutor

namespace VmTimeout

/-- Outcome of one `vm` run of a piece of code. -/
inductive RunOutcome where
  | completed
  | timedOut
  | runsForever
deriving DecidableEq

/-- Node `script.runInContext(ctx, options)` semantics over an abstract cost
model: `stepsToFinish = none` stands for code that never finishes on its own
(an infinite loop), `some n` for code finishing after `n` milliseconds; the
run aborts with a timeout error only when the options passed to the run carry
a `timeout` smaller than the code's cost, and without one the run is
unbounded. -/
def runInContext (stepsToFinish : Option Nat) (timeoutMs : Option Nat) :
    RunOutcome :=
  match stepsToFinish, timeoutMs with
  | some _, none => RunOutcome.completed
  | none, none => RunOutcome.runsForever
  | some n, some t => if n ≤ t then RunOutcome.completed else RunOutcome.timedOut
  | none, some _ => RunOutcome.timedOut

/-- The options object the source passes to `new vm.Script(...)` (lines
114-123): filename, offsets, and a `timeout: 5000` key. -/
structure ScriptOptions where
  filename : Option String
  lineOffset : Option Int
  columnOffset : Option Int
  timeout : Option Nat

/-- A compiled `vm.Script`. The Script constructor consumes only the
compile-time options (filename and offsets); `timeout` is a run-time option of
`runInContext`, not a recognized Script option, so it is dropped here. -/
structure Script where
  filename : Option String
  lineOffset : Option Int
  columnOffset : Option Int

/-- `new vm.Script(code, opts)`, keeping the options the constructor knows. -/
def Script.create (opts : ScriptOptions) : Script :=
  { filename := opts.filename
    lineOffset := opts.lineOffset
    columnOffset := opts.columnOffset }

/-- The options the source builds for `new vm.Script` in `evaluateCode`. -/
def usercodeScriptOptions : ScriptOptions :=
  { filename := some "usercode.js"
    lineOffset := some 0
    columnOffset := some 0
    timeout := some 5000 }

/-- `evaluateCode`'s run (line 126): `script.runInContext(vmContext)` is called
with no run options, so no timeout reaches the run. -/
def evaluateCodeRun (stepsToFinish : Option Nat) : RunOutcome :=
  runInContext stepsToFinish none

/-- C2 (code bug): the 5000 ms budget written into the `vm.Script` constructor
options never reaches the run — `runInContext` is invoked without options, so
an infinite loop runs forever instead of failing with an `InterpreterError`;
had the same budget been passed to the run, it would have timed out. -/
theorem timeout_not_wired :
    evaluateCodeRun none = RunOutcome.runsForever ∧
    usercodeScriptOptions.timeout = some 5000 ∧
    runInContext none (some 5000) = RunOutcome.timedOut :=
  ⟨rfl, rfl, rfl⟩

end VmTimeout

namespace ToolValidation

/-- tool_validation.js: `BUILTIN_NAMES`, the fixed set of host built-ins. -/
def BUILTIN_NAMES : List String :=
  ["Object", "Function", "Array", "Number", "String", "Boolean", "Symbol",
   "Date", "RegExp", "Error", "Math", "JSON", "console", "undefined",
   "parseInt", "parseFloat", "isNaN", "isFinite", "encodeURI", "decodeURI",
   "encodeURIComponent", "decodeURIComponent", "Map", "Set", "WeakMap",
   "WeakSet", "Promise", "Proxy", "Reflect", "BigInt", "Intl"]

/-- The constructor-parameter check of `validateToolAttributes` (lines
118-124): `ctorLength` is the JavaScript `Function.length` of
`cls.prototype.constructor` (its declared parameter count, which in JS does
not count the implicit receiver), `ctorIsObject` whether that constructor is
`Object`; an error is reported only when the length exceeds 1. -/
def constructorArgsErrors (ctorIsObject : Bool) (ctorLength : Nat) :
    List String :=
  if (!ctorIsObject) && decide (1 < ctorLength) then
    ["This tool has additional args specified in constructor: " ++
      toString (ctorLength - 1) ++
      ". Make sure it does not, all values should be hardcoded!"]
  else []

/-- C8 (code bug): a tool constructor declaring exactly one caller-supplied
parameter passes the check (JS `Function.length` does not count the receiver,
yet the code keeps the Python threshold `> 1` and the Python count
`length - 1`), while a parameterless constructor passes and a two-parameter
constructor is flagged. -/
theorem constructor_param_check_off_by_one :
    constructorArgsErrors false 1 = [] ∧
    constructorArgsErrors false 0 = [] ∧
    constructorArgsErrors false 2 ≠ [] :=
  ⟨rfl, rfl, by decide⟩

end ToolValidation

namespace ToolValidation

/-- tool_validation.js `MethodChecker`: the per-method state of the static
validator. `argNames` is filled by `visitParams` from the method's parameter
list, `assignedNames` grows as `VariableDeclaration` nodes are visited;
`imports` and `fromImports` exist in the class but nothing in the file ever
adds to them. -/
structure MethodChecker where
  argNames : List String
  classAttributes : List String
  assignedNames : List String
  imports : List String
  fromImports : List String
  checkImports : Bool

/-- `MethodChecker.isDefinedName` (lines 80-91), the source's disjunction in
order: built-ins, the authorized-module list imported from utils.js, the
method's parameters, `this`, class attributes, imports, from-imports, and the
names assigned so far. -/
def isDefinedName (c : MethodChecker) (name : String) : Bool :=
  decide (name ∈ BUILTIN_NAMES) ||
  decide (name ∈ Utils.BASE_BUILTIN_MODULES) ||
  decide (name ∈ c.argNames) ||
  (name == "this") ||
  decide (name ∈ c.classAttributes) ||
  decide (name ∈ c.imports) ||
  decide (name ∈ c.fromImports) ||
  decide (name ∈ c.assignedNames)

/-- The stream of events the `walk.simple` traversal of a method body delivers
to the checker, in source order: `useOcc n` for each `Identifier` node visited
in expression position (binding positions are walked under the `Pattern`
override and produce no such event), and `declOcc n` for each name a
`VariableDeclaration` callback adds. -/
inductive BodyEvent where
  | useOcc (name : String)
  | declOcc (name : String)
deriving DecidableEq

/-- The error string pushed by `visitIdentifier` for an undefined name. -/
def undefinedMsg (name : String) : String :=
  "Name '" ++ name ++ "' is undefined."

/-- The walk of one method body: each use-occurrence is checked against
`isDefinedName` at that point, each declaration extends `assignedNames`. -/
def runChecker (c : MethodChecker) : List BodyEvent → List String
  | [] => []
  | BodyEvent.useOcc n :: rest =>
      (if isDefinedName c n then [] else [undefinedMsg n]) ++ runChecker c rest
  | BodyEvent.declOcc n :: rest =>
      runChecker { c with assignedNames := c.assignedNames ++ [n] } rest

/-- The checker as `validateToolAttributes` builds it for one method: the
class attributes from the class walk, the argument names from `visitParams`,
everything else empty. -/
def mkChecker (classAttributes argNames : List String) : MethodChecker :=
  { argNames := argNames
    classAttributes := classAttributes
    assignedNames := []
    imports := []
    fromImports := []
    checkImports := true }

/-- The names bound by declarations among the first `i` events of the body. -/
def declaredBefore (body : List BodyEvent) (i : Nat) : List String :=
  (body.take i).filterMap (fun e =>
    match e with
    | BodyEvent.declOcc n => some n
    | BodyEvent.useOcc _ => none)

/-- The claim's category test, spelled from the spec's words: an identifier is
an undefined-name violation when it is not among the method's own parameters,
the receiver reference, the class-level attributes, the given locally-declared
names, the authorized-module list, or the fixed set of host built-ins. -/
@[reducible] def specViolation (attrs args declared : List String)
    (n : String) : Prop :=
  ¬ (n ∈ args ∨ n = "this" ∨ n ∈ attrs ∨ n ∈ declared ∨
     n ∈ Utils.BASE_BUILTIN_MODULES ∨ n ∈ BUILTIN_NAMES)

/-- The violations the claim (amended to declaration order) predicts, walking
the body with the names declared so far: a use-occurrence is reported exactly
when `specViolation` holds of it against the declarations made earlier. -/
def specReportedFrom (attrs args declared : List String) :
    List BodyEvent → List String
  | [] => []
  | BodyEvent.useOcc n :: rest =>
      (if specViolation attrs args declared n then [undefinedMsg n] else []) ++
        specReportedFrom attrs args declared rest
  | BodyEvent.declOcc n :: rest =>
      specReportedFrom attrs args (declared ++ [n]) rest

/-- The predicted violation list for a whole method body. -/
def specReported (attrs args : List String) (body : List BodyEvent) :
    List String :=
  specReportedFrom attrs args [] body

/-- The checker mid-walk: like `mkChecker`, with the names assigned so far. -/
def mkCheckerAssigned (attrs args assigned : List String) : MethodChecker :=
  { argNames := args
    classAttributes := attrs
    assignedNames := assigned
    imports := []
    fromImports := []
    checkImports := true }

theorem isDefinedName_mkChecker (attrs args assigned : List String)
    (n : String) :
    isDefinedName (mkCheckerAssigned attrs args assigned) n = true ↔
      ¬ specViolation attrs args assigned n := by
  simp [isDefinedName, specViolation, mkCheckerAssigned]
  tauto

theorem runChecker_eq_spec (attrs args : List String) :
    ∀ (body : List BodyEvent) (assigned : List String),
      runChecker (mkCheckerAssigned attrs args assigned) body
        = specReportedFrom attrs args assigned body := by
  intro body
  induction body with
  | nil => intro assigned; rfl
  | cons e rest ih =>
    intro assigned
    cases e with
    | useOcc m =>
      by_cases hv : specViolation attrs args assigned m
      · have hb : isDefinedName (mkCheckerAssigned attrs args assigned) m = false := by
          cases hI : isDefinedName (mkCheckerAssigned attrs args assigned) m
          · rfl
          · exact absurd hv (by
              have hd := (isDefinedName_mkChecker attrs args assigned m).mp hI
              exact fun hc => hd hc)
        simp only [runChecker, specReportedFrom, hb, ih assigned, if_pos hv]
        simp
      · have hb : isDefinedName (mkCheckerAssigned attrs args assigned) m = true :=
          (isDefinedName_mkChecker attrs args assigned m).mpr hv
        simp only [runChecker, specReportedFrom, hb, ih assigned, if_neg hv]
        simp
    | declOcc m =>
      show runChecker (mkCheckerAssigned attrs args (assigned ++ [m])) rest
        = specReportedFrom attrs args (assigned ++ [m]) rest
      exact ih (assigned ++ [m])

/-- C9 (amended): for every method body, the validator reports an
undefined-name violation exactly for the use-occurrences whose identifier is
not among the method's parameters, the receiver `this`, the class attributes,
the authorized-module list, the host built-ins, or the names bound by local
declarations occurring earlier in the body (the `imports`/`fromImports`
categories of the source are always empty, nothing ever fills them). -/
theorem method_checker_reports (attrs args : List String)
    (body : List BodyEvent) :
    runChecker (mkChecker attrs args) body = specReported attrs args body :=
  runChecker_eq_spec attrs args body []

/-- C9 counterexample: the identifier `x` is bound by a local declaration of
the body, yet its use before that declaration is reported as undefined —
refuting the claim that identifiers in the listed categories are never
reported. -/
theorem use_before_decl_reported_cex :
    runChecker (mkChecker [] []) [BodyEvent.useOcc "x", BodyEvent.declOcc "x"]
      = [undefinedMsg "x"] ∧
    "x" ∈ declaredBefore [BodyEvent.useOcc "x", BodyEvent.declOcc "x"] 2 :=
  ⟨by decide, by decide⟩

end ToolValidation
